import Mathlib

/-!
Verification of the batch copier script `copy_and_verify.py`.

The script copies a fixed manifest of files from a source directory to a
destination directory, creating the destination directory if absent, and
writes a plain-text log.  We embed the file system as a finite map from
paths to file contents together with a list of directory paths, and the
script's run as a function threading this state.  OS-level failures
(permission errors, disk full, ...) are injected by an oracle indexed by
the number of fallible OS calls made so far; intrinsic failures (listing a
non-directory, copying a directory) are raised by the operations
themselves.  The `try/except Exception` block of the script is modelled by
`afterTry`; the final unconditional log write by `run`.
-/

namespace BatchCopier

/-- Association-list lookup for the file map (Python: reading a file at a path). -/
def lookupF : List (String × String) → String → Option String
  | [], _ => none
  | (q, v) :: rest, p => if q = p then some v else lookupF rest p

/-- Write a file at a path, overwriting any existing entry (Python: writing a file). -/
def setFile : List (String × String) → String → String → List (String × String)
  | [], p, c => [(p, c)]
  | (q, v) :: rest, p, c => if q = p then (p, c) :: rest else (q, v) :: setFile rest p c

/-- Boolean membership in a list of paths. -/
def memS : List String → String → Bool
  | [], _ => false
  | x :: rest, p => if x = p then true else memS rest p

/-- Split a character list at every slash (the components of a path). -/
def splitSlash : List Char → List (List Char)
  | [] => [[]]
  | c :: rest =>
    match splitSlash rest with
    | [] => [[]]
    | g :: gs => if c = '/' then [] :: g :: gs else (c :: g) :: gs

/-- The last character of a string, if any. -/
def strLast (s : String) : Option Char := s.data.getLast?

/-- os.path.join for a directory and a file name.  The script's directory
constants end in a slash, in which case join is plain concatenation;
otherwise a slash separator is inserted. -/
def pathJoin (d n : String) : String :=
  if strLast d = some '/' then d ++ n else d ++ "/" ++ n

/-- The slash-separated parent paths of `p` together with `p` itself: the
directories `os.makedirs p` guarantees to exist afterwards. -/
def ancestors (p : String) : List String :=
  ((List.range ((splitSlash p.data).length - 1)).map
    (fun k => String.mk (List.intercalate [Char.ofNat 47] ((splitSlash p.data).take (k + 1)))))
    ++ [p]

/-- The file-system state: directory paths and a map from file paths to
file contents (byte strings). -/
structure FS where
  dirs : List String
  files : List (String × String)
deriving DecidableEq

/-- os.path.exists: true if the path is a directory or a file. -/
def pathExists (fs : FS) (p : String) : Bool :=
  memS fs.dirs p || (lookupF fs.files p).isSome

/-- os.makedirs: create the directory and all its missing parents. -/
def makedirs (fs : FS) (p : String) : FS :=
  { fs with dirs := ancestors p ++ fs.dirs }

/-- Boolean prefix test on character lists. -/
def isPre : List Char → List Char → Bool
  | [], _ => true
  | _ :: _, [] => false
  | a :: as, b :: bs => if a = b then isPre as bs else false

/-- The name of `p` as a direct child of directory `d`, when it is one. -/
def childName (d p : String) : Option String :=
  let pre := if strLast d = some '/' then d.data else d.data ++ [Char.ofNat 47]
  if isPre pre p.data then
    let rest := p.data.drop pre.length
    if rest.isEmpty || rest.contains '/' then none else some (String.mk rest)
  else none

/-- os.listdir: names of the entries directly inside directory `d`, in the
order the file-system state yields them (files, then directories). -/
def listdir (fs : FS) (d : String) : List String :=
  (fs.files.map Prod.fst ++ fs.dirs).filterMap (childName d)

/-- The single-quote character, as used by Python's repr of strings. -/
def pyQuote : String := String.mk [Char.ofNat 39]

/-- Python's str() of a list of strings, as the script logs os.listdir. -/
def pyListRepr (l : List String) : String :=
  "[" ++ String.intercalate ", " (l.map (fun s => pyQuote ++ s ++ pyQuote)) ++ "]"

/-- Log line f"Created directory {dst_dir}". -/
def createdLine (d : String) : String := "Created directory " ++ d

/-- Log line f"Copied {src} to {dst}". -/
def copiedLine (s d : String) : String := "Copied " ++ s ++ " to " ++ d

/-- Log line f"Source file not found: {src}". -/
def notFoundLine (s : String) : String := "Source file not found: " ++ s

/-- Log line "Destination contents:". -/
def contentsHeader : String := "Destination contents:"

/-- Log line f"Error: {e}" appended by the except handler. -/
def errorLine (msg : String) : String := "Error: " ++ msg

/-- Message of the NotADirectoryError raised by os.listdir on a
non-directory, or by opening a destination whose directory is a
non-directory; Python's str() of an OSError quotes the filename. -/
def notADirMsg (p : String) : String :=
  "[Errno 20] Not a directory: " ++ pyQuote ++ p ++ pyQuote

/-- Message of the IsADirectoryError raised by shutil.copy when reading a
directory source; the filename is quoted as Python's str() renders it. -/
def isADirMsg (p : String) : String :=
  "[Errno 21] Is a directory: " ++ pyQuote ++ p ++ pyQuote

/-- Message of the FileNotFoundError raised by opening a destination whose
directory does not exist; the filename is quoted. -/
def fileNotFoundMsg (p : String) : String :=
  "[Errno 2] No such file or directory: " ++ pyQuote ++ p ++ pyQuote

/-- The fixed relative path of the output log file. -/
def logPath : String := "copy_log.txt"

/-- Failure oracle: for each fallible OS call (counted from 0), either
`none` (the call behaves normally) or `some msg` (the call raises an
exception with message `msg`). -/
def Oracle : Type := Nat → Option String

/-- The oracle that injects no failures. -/
def noErr : Oracle := fun _ => none

/-- In-run state: the file system, the accumulated log, and the number of
fallible OS calls made so far. -/
structure St where
  fs : FS
  log : List String
  calls : Nat
deriving DecidableEq

/-- One fallible OS call: an oracle-injected failure aborts with the given
message; otherwise the operation `k` runs and may itself raise. -/
def osCall (o : Oracle) (st : St) (k : St → Except String St) : Except (St × String) St :=
  match o st.calls with
  | some msg => .error ({ st with calls := st.calls + 1 }, msg)
  | none =>
    match k { st with calls := st.calls + 1 } with
    | .ok st1 => .ok st1
    | .error msg => .error ({ st with calls := st.calls + 1 }, msg)

/-- The full source path of a manifest entry. -/
def srcPath (sd : String) (e : String × String) : String := pathJoin sd e.1

/-- The full destination path of a manifest entry. -/
def dstPath (dd : String) (e : String × String) : String := pathJoin dd e.2

/-- Lines 15-17 of the script: if the destination directory does not
exist, create it (with parents) and log the creation. -/
def mkdirStep (dd : String) (o : Oracle) (st : St) : Except (St × String) St :=
  if pathExists st.fs dd then .ok st
  else
    osCall o st (fun st1 =>
      .ok { st1 with fs := makedirs st1.fs dd, log := st1.log ++ [createdLine dd] })

/-- Lines 20-26 of the script, one manifest entry: if the full source path
exists, shutil.copy its bytes to the full destination path (overwriting)
and log the copy; otherwise log that the source was not found.
shutil.copy opens the source first — a directory source raises
IsADirectoryError — and then the destination, which raises
NotADirectoryError when the destination directory path exists but is not a
directory, and FileNotFoundError when it does not exist at all. -/
def copyStep (sd dd : String) (o : Oracle) (e : String × String) (st : St) :
    Except (St × String) St :=
  if pathExists st.fs (srcPath sd e) then
    osCall o st (fun st1 =>
      match lookupF st1.fs.files (srcPath sd e) with
      | some c =>
        if memS st1.fs.dirs dd then
          .ok { st1 with
            fs := { st1.fs with files := setFile st1.fs.files (dstPath dd e) c },
            log := st1.log ++ [copiedLine (srcPath sd e) (dstPath dd e)] }
        else if pathExists st1.fs dd then .error (notADirMsg (dstPath dd e))
        else .error (fileNotFoundMsg (dstPath dd e))
      | none => .error (isADirMsg (srcPath sd e)))
  else
    .ok { st with log := st.log ++ [notFoundLine (srcPath sd e)] }

/-- Line 19 of the script: process the manifest entries in listed order. -/
def copyLoop (sd dd : String) (o : Oracle) : List (String × String) → St → Except (St × String) St
  | [], st => .ok st
  | e :: rest, st =>
    match copyStep sd dd o e st with
    | .ok st1 => copyLoop sd dd o rest st1
    | .error err => .error err

/-- Lines 28-29 of the script: append "Destination contents:" and then the
str() of os.listdir(dst_dir); os.listdir raises on a non-directory. -/
def listStep (dd : String) (o : Oracle) (st : St) : Except (St × String) St :=
  osCall o { st with log := st.log ++ [contentsHeader] } (fun st1 =>
    if memS st1.fs.dirs dd then
      .ok { st1 with log := st1.log ++ [pyListRepr (listdir st1.fs dd)] }
    else .error (notADirMsg dd))

/-- Lines 14-29 of the script: the body of the try block. -/
def tryRun (sd dd : String) (man : List (String × String)) (o : Oracle) (st : St) :
    Except (St × String) St :=
  match mkdirStep dd o st with
  | .error err => .error err
  | .ok st1 =>
    match copyLoop sd dd o man st1 with
    | .error err => .error err
    | .ok st2 => listStep dd o st2

/-- Lines 14-31 of the script: the try block with the except handler that
appends f"Error: {e}" to the log and swallows the exception. -/
def afterTry (sd dd : String) (man : List (String × String)) (o : Oracle) (st : St) : St :=
  match tryRun sd dd man o st with
  | .ok st1 => st1
  | .error (st1, msg) => { st1 with log := st1.log ++ [errorLine msg] }

/-- The in-run state when control reaches line 33 of the script. -/
def finalState (sd dd : String) (man : List (String × String)) (o : Oracle) (fs : FS) : St :=
  afterTry sd dd man o { fs := fs, log := [], calls := 0 }

/-- The whole script: try block, except handler, then the unconditional
write of the newline-joined log to `copy_log.txt` (overwriting).  The
final write is outside the try block: if it raises, the error propagates
to the caller and the result is `.error`. -/
def run (sd dd : String) (man : List (String × String)) (o : Oracle) (fs : FS) :
    Except String (FS × List String) :=
  match o (finalState sd dd man o fs).calls with
  | some msg => .error msg
  | none =>
    .ok ({ (finalState sd dd man o fs).fs with
            files := setFile (finalState sd dd man o fs).fs.files logPath
              (String.intercalate "\n" (finalState sd dd man o fs).log) },
         (finalState sd dd man o fs).log)

/-- Line 4 of the script: the hardcoded source directory. -/
def src_dir : String :=
  "/Users/agustinmontoya/.gemini/antigravity/brain/78cdc80a-5658-49ad-b030-70cc2cb4da13/"

/-- Line 5 of the script: the hardcoded destination directory. -/
def dst_dir : String :=
  "/Users/agustinmontoya/Projectos/MVPs/juego-cartas-educativo/mindspark-duel/public/assets/decks/"

/-- Lines 7-11 of the script: the hardcoded manifest. -/
def files : List (String × String) :=
  [("technomancer_epic_box_1764234646053.png", "technomancer-box.png"),
   ("nature_epic_box_1764234660611.png", "grove-guardians-box.png"),
   ("arcane_epic_box_1764234805234.png", "arcane-scholars-box.png")]

/-- The script as shipped: `run` at the hardcoded constants. -/
def runScript (o : Oracle) (fs : FS) : Except String (FS × List String) :=
  run src_dir dst_dir files o fs

/-- The log line a manifest entry produces in a failure-free run started
from file-system state `fs0` (sources are untouched by such a run when no
source path is also a destination path). -/
def entryLine (sd dd : String) (fs0 : FS) (e : String × String) : String :=
  if pathExists fs0 (srcPath sd e) then copiedLine (srcPath sd e) (dstPath dd e)
  else notFoundLine (srcPath sd e)

/-- The file writes a failure-free run performs, as a fold over the
manifest reading contents from `fs0`. -/
def foldWrites (sd dd : String) (fs0 : FS) : List (String × String) →
    List (String × String) → List (String × String)
  | [], fl => fl
  | e :: rest, fl =>
    foldWrites sd dd fs0 rest
      (match lookupF fs0.files (srcPath sd e) with
       | some c => setFile fl (dstPath dd e) c
       | none => fl)

/-- The content of the last write a failure-free run performs at path `P`
(later manifest entries take precedence). -/
def lastWrite (sd dd : String) (fs0 : FS) (P : String) : List (String × String) → Option String
  | [] => none
  | e :: rest =>
    Option.or (lastWrite sd dd fs0 P rest)
      (match lookupF fs0.files (srcPath sd e) with
       | some c => if dstPath dd e = P then some c else none
       | none => none)

/-- The directory list after a failure-free run. -/
def dirsAfter (dd : String) (fs : FS) : List String :=
  if pathExists fs dd then fs.dirs else ancestors dd ++ fs.dirs

/-- The file map after the copy loop of a failure-free run. -/
def filesAfter (sd dd : String) (man : List (String × String)) (fs : FS) :
    List (String × String) :=
  foldWrites sd dd fs man fs.files

/-- The file system (before the final log write) after a failure-free run. -/
def fsAfter (sd dd : String) (man : List (String × String)) (fs : FS) : FS :=
  { dirs := dirsAfter dd fs, files := filesAfter sd dd man fs }

/-- The accumulated log of a run with no oracle-injected failures. -/
def logAfter (sd dd : String) (man : List (String × String)) (fs : FS) : List String :=
  (if pathExists fs dd then [] else [createdLine dd])
    ++ man.map (entryLine sd dd fs)
    ++ (if memS (dirsAfter dd fs) dd then
          [contentsHeader, pyListRepr (listdir (fsAfter sd dd man fs) dd)]
        else [contentsHeader, errorLine (notADirMsg dd)])

/-- The state (ok or error) an exception-monad computation ends in. -/
def outSt : Except (St × String) St → St
  | .ok st => st
  | .error (st, _) => st

/-! ### Basic lemmas about the file-map and path primitives -/

theorem lookupF_setFile_self (l : List (String × String)) (p c : String) :
    lookupF (setFile l p c) p = some c := by
  induction l with
  | nil => simp [setFile, lookupF]
  | cons hd tl ih =>
    obtain ⟨q, v⟩ := hd
    by_cases h : q = p
    · simp [setFile, h, lookupF]
    · simp [setFile, h, lookupF, ih]

theorem lookupF_setFile_ne (l : List (String × String)) (p c q : String) (h : q ≠ p) :
    lookupF (setFile l p c) q = lookupF l q := by
  induction l with
  | nil =>
    simp only [setFile, lookupF, if_neg (fun hh : p = q => h hh.symm)]
  | cons hd tl ih =>
    obtain ⟨r, v⟩ := hd
    by_cases hr : r = p
    · subst hr
      simp only [setFile, if_pos rfl, lookupF, if_neg (fun hh : r = q => h hh.symm)]
    · simp only [setFile, if_neg hr, lookupF, ih]

theorem isSome_lookupF_setFile (l : List (String × String)) (p c q : String)
    (h : (lookupF l q).isSome = true) : (lookupF (setFile l p c) q).isSome = true := by
  by_cases hq : q = p
  · subst hq; simp [lookupF_setFile_self]
  · rw [lookupF_setFile_ne l p c q hq]; exact h

theorem memS_append (a b : List String) (p : String) :
    memS (a ++ b) p = (memS a p || memS b p) := by
  induction a with
  | nil => simp [memS]
  | cons x rest ih =>
    by_cases h : x = p
    · simp [memS, h]
    · simp [memS, h, ih]

theorem memS_ancestors_self (p : String) : memS (ancestors p) p = true := by
  rw [ancestors, memS_append]
  simp [memS]

theorem or_or_self (a b : Option String) : Option.or a (Option.or a b) = Option.or a b := by
  cases a <;> simp [Option.or]

/-! ### The log lines are pairwise distinguishable where the claims need it -/

theorem string_ne_of_get (s t : String) (i : Nat) (h : s.data.get? i ≠ t.data.get? i) :
    s ≠ t := fun he => h (by rw [he])

theorem data_append (s t : String) : (s ++ t).data = s.data ++ t.data := by
  cases s; cases t; rfl

theorem createdLine_get0 (d : String) : (createdLine d).data.get? 0 = some 'C' := by
  rw [createdLine, data_append, List.get?_append (by decide)]
  rfl

theorem createdLine_get1 (d : String) : (createdLine d).data.get? 1 = some 'r' := by
  rw [createdLine, data_append, List.get?_append (by decide)]
  rfl

theorem copiedLine_get1 (a b : String) : (copiedLine a b).data.get? 1 = some 'o' := by
  rw [copiedLine, data_append, data_append, data_append, List.append_assoc,
    List.append_assoc, List.get?_append (by decide)]
  rfl

theorem notFoundLine_get0 (a : String) : (notFoundLine a).data.get? 0 = some 'S' := by
  rw [notFoundLine, data_append, List.get?_append (by decide)]
  rfl

theorem errorLine_get0 (m : String) : (errorLine m).data.get? 0 = some 'E' := by
  rw [errorLine, data_append, List.get?_append (by decide)]
  rfl

theorem pyListRepr_get0 (ns : List String) : (pyListRepr ns).data.get? 0 = some '[' := by
  rw [pyListRepr, data_append, data_append, List.append_assoc,
    List.get?_append (by decide)]
  rfl

theorem copiedLine_ne_createdLine (a b d : String) : copiedLine a b ≠ createdLine d := by
  apply string_ne_of_get _ _ 1
  rw [copiedLine_get1, createdLine_get1]
  decide

theorem notFoundLine_ne_createdLine (a d : String) : notFoundLine a ≠ createdLine d := by
  apply string_ne_of_get _ _ 0
  rw [notFoundLine_get0, createdLine_get0]
  decide

theorem contentsHeader_ne_createdLine (d : String) : contentsHeader ≠ createdLine d := by
  apply string_ne_of_get _ _ 0
  rw [createdLine_get0]
  decide

theorem pyListRepr_ne_createdLine (ns : List String) (d : String) :
    pyListRepr ns ≠ createdLine d := by
  apply string_ne_of_get _ _ 0
  rw [pyListRepr_get0, createdLine_get0]
  decide

theorem errorLine_ne_createdLine (m d : String) : errorLine m ≠ createdLine d := by
  apply string_ne_of_get _ _ 0
  rw [errorLine_get0, createdLine_get0]
  decide

/-! ### Unfolding lemmas for the individual steps -/

theorem mkdirStep_exists (dd : String) (o : Oracle) (st : St)
    (h : pathExists st.fs dd = true) : mkdirStep dd o st = .ok st := by
  simp [mkdirStep, h]

theorem mkdirStep_clean_missing (dd : String) (o : Oracle) (st : St)
    (h : pathExists st.fs dd = false) (hO : o st.calls = none) :
    mkdirStep dd o st = .ok
      { fs := makedirs st.fs dd, log := st.log ++ [createdLine dd], calls := st.calls + 1 } := by
  simp [mkdirStep, h, osCall, hO]

theorem copyStep_notfound (sd dd : String) (o : Oracle) (e : String × String) (st : St)
    (h : pathExists st.fs (srcPath sd e) = false) :
    copyStep sd dd o e st = .ok { st with log := st.log ++ [notFoundLine (srcPath sd e)] } := by
  simp [copyStep, h]

theorem copyStep_clean_copy (sd dd : String) (o : Oracle) (e : String × String) (st : St)
    (c : String) (hO : o st.calls = none)
    (hc : lookupF st.fs.files (srcPath sd e) = some c)
    (hm : memS st.fs.dirs dd = true) :
    copyStep sd dd o e st = .ok
      { fs := { dirs := st.fs.dirs, files := setFile st.fs.files (dstPath dd e) c },
        log := st.log ++ [copiedLine (srcPath sd e) (dstPath dd e)],
        calls := st.calls + 1 } := by
  have hex : pathExists st.fs (srcPath sd e) = true := by
    rw [pathExists, hc]; simp
  simp [copyStep, hex, osCall, hO, hc, hm]

theorem copyStep_dstnotdir (sd dd : String) (o : Oracle) (e : String × String) (st : St)
    (c : String) (hO : o st.calls = none)
    (hc : lookupF st.fs.files (srcPath sd e) = some c)
    (hm : memS st.fs.dirs dd = false) (hp : pathExists st.fs dd = true) :
    copyStep sd dd o e st = .error
      ({ st with calls := st.calls + 1 }, notADirMsg (dstPath dd e)) := by
  have hex : pathExists st.fs (srcPath sd e) = true := by
    rw [pathExists, hc]; simp
  simp [copyStep, hex, osCall, hO, hc, hm, hp]

theorem copyStep_dstmissing (sd dd : String) (o : Oracle) (e : String × String) (st : St)
    (c : String) (hO : o st.calls = none)
    (hc : lookupF st.fs.files (srcPath sd e) = some c)
    (hm : memS st.fs.dirs dd = false) (hp : pathExists st.fs dd = false) :
    copyStep sd dd o e st = .error
      ({ st with calls := st.calls + 1 }, fileNotFoundMsg (dstPath dd e)) := by
  have hex : pathExists st.fs (srcPath sd e) = true := by
    rw [pathExists, hc]; simp
  simp [copyStep, hex, osCall, hO, hc, hm, hp]

theorem listStep_clean_dir (dd : String) (o : Oracle) (st : St)
    (hO : o st.calls = none) (h : memS st.fs.dirs dd = true) :
    listStep dd o st = .ok
      { fs := st.fs, log := st.log ++ [contentsHeader, pyListRepr (listdir st.fs dd)],
        calls := st.calls + 1 } := by
  simp [listStep, osCall, hO, h]

theorem listStep_clean_nondir (dd : String) (o : Oracle) (st : St)
    (hO : o st.calls = none) (h : memS st.fs.dirs dd = false) :
    listStep dd o st = .error
      ({ fs := st.fs, log := st.log ++ [contentsHeader], calls := st.calls + 1 },
       notADirMsg dd) := by
  simp [listStep, osCall, hO, h]

/-! ### The copy loop under a failure-free oracle -/

theorem copyLoop_clean (sd dd : String) (o : Oracle) (fs0 : FS) (hO : ∀ n, o n = none) :
    ∀ (man : List (String × String)) (st : St),
    (∀ e ∈ man, lookupF st.fs.files (srcPath sd e) = lookupF fs0.files (srcPath sd e)) →
    (∀ e ∈ man, memS st.fs.dirs (srcPath sd e) = memS fs0.dirs (srcPath sd e)) →
    (∀ e ∈ man, pathExists fs0 (srcPath sd e) = true →
      (lookupF fs0.files (srcPath sd e)).isSome = true) →
    (∀ e ∈ man, ∀ f ∈ man, srcPath sd e ≠ dstPath dd f) →
    memS st.fs.dirs dd = true →
    ∃ n, copyLoop sd dd o man st = .ok
      { fs := { dirs := st.fs.dirs, files := foldWrites sd dd fs0 man st.fs.files },
        log := st.log ++ man.map (entryLine sd dd fs0), calls := n } := by
  intro man
  induction man with
  | nil =>
    intro st _ _ _ _ _
    exact ⟨st.calls, by simp [copyLoop, foldWrites]⟩
  | cons e rest ih =>
    intro st hfiles hdirs hsf hni hdd
    have hpe : pathExists st.fs (srcPath sd e) = pathExists fs0 (srcPath sd e) := by
      rw [pathExists, pathExists, hfiles e (List.mem_cons_self e rest),
        hdirs e (List.mem_cons_self e rest)]
    by_cases hex : pathExists fs0 (srcPath sd e) = true
    · obtain ⟨c, hc⟩ := Option.isSome_iff_exists.mp (hsf e (List.mem_cons_self e rest) hex)
      have hc' : lookupF st.fs.files (srcPath sd e) = some c := by
        rw [hfiles e (List.mem_cons_self e rest)]; exact hc
      obtain ⟨n, hn⟩ := ih
        { fs := { dirs := st.fs.dirs, files := setFile st.fs.files (dstPath dd e) c },
          log := st.log ++ [copiedLine (srcPath sd e) (dstPath dd e)],
          calls := st.calls + 1 }
        (by
          intro f hf
          have hne : srcPath sd f ≠ dstPath dd e :=
            hni f (List.mem_cons_of_mem e hf) e (List.mem_cons_self e rest)
          simpa [lookupF_setFile_ne _ _ _ _ hne] using hfiles f (List.mem_cons_of_mem e hf))
        (fun f hf => hdirs f (List.mem_cons_of_mem e hf))
        (fun f hf => hsf f (List.mem_cons_of_mem e hf))
        (fun f hf g hg =>
          hni f (List.mem_cons_of_mem e hf) g (List.mem_cons_of_mem e hg))
        hdd
      refine ⟨n, ?_⟩
      simp only [copyLoop, copyStep_clean_copy sd dd o e st c (hO st.calls) hc' hdd]
      rw [hn]
      simp only [foldWrites, hc, List.map_cons, entryLine, if_pos hex, List.append_assoc,
        List.singleton_append]
    · have hex' : pathExists fs0 (srcPath sd e) = false := by
        cases h : pathExists fs0 (srcPath sd e)
        · rfl
        · exact absurd h hex
      have hnone : lookupF fs0.files (srcPath sd e) = none := by
        rw [pathExists] at hex'
        rcases Bool.or_eq_false_iff.mp hex' with ⟨_, h2⟩
        exact Option.not_isSome_iff_eq_none.mp (by rw [h2]; exact Bool.false_ne_true)
      obtain ⟨n, hn⟩ := ih
        { st with log := st.log ++ [notFoundLine (srcPath sd e)] }
        (fun f hf => hfiles f (List.mem_cons_of_mem e hf))
        (fun f hf => hdirs f (List.mem_cons_of_mem e hf))
        (fun f hf => hsf f (List.mem_cons_of_mem e hf))
        (fun f hf g hg =>
          hni f (List.mem_cons_of_mem e hf) g (List.mem_cons_of_mem e hg))
        hdd
      refine ⟨n, ?_⟩
      simp only [copyLoop, copyStep_notfound sd dd o e st (hpe.trans hex')]
      rw [hn]
      simp only [foldWrites, hnone, List.map_cons, entryLine, if_neg hex, List.append_assoc,
        List.singleton_append]

/-! ### Composition lemmas for the try block -/

theorem tryRun_steps (sd dd : String) (man : List (String × String)) (o : Oracle)
    (st st1 st2 : St) (r : Except (St × String) St)
    (h1 : mkdirStep dd o st = .ok st1)
    (h2 : copyLoop sd dd o man st1 = .ok st2)
    (h3 : listStep dd o st2 = r) :
    tryRun sd dd man o st = r := by
  simp only [tryRun, h1, h2, h3]

theorem tryRun_mkdir_err (sd dd : String) (man : List (String × String)) (o : Oracle)
    (st : St) (err : St × String) (h1 : mkdirStep dd o st = .error err) :
    tryRun sd dd man o st = .error err := by
  simp only [tryRun, h1]

theorem tryRun_loop_err (sd dd : String) (man : List (String × String)) (o : Oracle)
    (st st1 : St) (err : St × String)
    (h1 : mkdirStep dd o st = .ok st1)
    (h2 : copyLoop sd dd o man st1 = .error err) :
    tryRun sd dd man o st = .error err := by
  simp only [tryRun, h1, h2]

theorem afterTry_of_ok (sd dd : String) (man : List (String × String)) (o : Oracle)
    (st st1 : St) (h : tryRun sd dd man o st = .ok st1) :
    afterTry sd dd man o st = st1 := by
  simp only [afterTry, h]

theorem afterTry_of_err (sd dd : String) (man : List (String × String)) (o : Oracle)
    (st st1 : St) (msg : String) (h : tryRun sd dd man o st = .error (st1, msg)) :
    afterTry sd dd man o st = { st1 with log := st1.log ++ [errorLine msg] } := by
  simp only [afterTry, h]

/-! ### The whole run under a failure-free oracle -/

theorem finalState_clean (sd dd : String) (man : List (String × String)) (o : Oracle)
    (fs : FS) (hO : ∀ n, o n = none)
    (hsf : ∀ e ∈ man, pathExists fs (srcPath sd e) = true →
      (lookupF fs.files (srcPath sd e)).isSome = true)
    (hni : ∀ e ∈ man, ∀ f ∈ man, srcPath sd e ≠ dstPath dd f)
    (hanc : pathExists fs dd = true ∨
      ∀ e ∈ man, memS (ancestors dd) (srcPath sd e) = false)
    (hdir : memS fs.dirs dd = true ∨ pathExists fs dd = false) :
    ∃ n, finalState sd dd man o fs =
      { fs := { dirs := dirsAfter dd fs, files := filesAfter sd dd man fs },
        log := logAfter sd dd man fs, calls := n } := by
  by_cases hdd : pathExists fs dd = true
  · have hm : memS fs.dirs dd = true := by
      rcases hdir with h | h
      · exact h
      · exact absurd hdd (by rw [h]; exact Bool.false_ne_true)
    obtain ⟨n, hloop⟩ := copyLoop_clean sd dd o fs hO man { fs := fs, log := [], calls := 0 }
      (fun _ _ => rfl) (fun _ _ => rfl) hsf hni hm
    have hmk := mkdirStep_exists dd o { fs := fs, log := [], calls := 0 } hdd
    have hlist := listStep_clean_dir dd o
      { fs := { dirs := fs.dirs, files := foldWrites sd dd fs man fs.files },
        log := [] ++ List.map (entryLine sd dd fs) man, calls := n } (hO n) hm
    refine ⟨n + 1, ?_⟩
    rw [finalState,
      afterTry_of_ok sd dd man o _ _ (tryRun_steps sd dd man o _ _ _ _ hmk hloop hlist)]
    simp only [logAfter, fsAfter, dirsAfter, filesAfter, if_pos hdd, hm]
    simp [listdir]
  · have hdd' : pathExists fs dd = false := by
      cases h : pathExists fs dd
      · rfl
      · exact absurd h hdd
    have hancR : ∀ e ∈ man, memS (ancestors dd) (srcPath sd e) = false := by
      rcases hanc with h | h
      · exact absurd h hdd
      · exact h
    have hmem : memS (makedirs fs dd).dirs dd = true := by
      show memS (ancestors dd ++ fs.dirs) dd = true
      rw [memS_append, memS_ancestors_self]
      rfl
    obtain ⟨n, hloop⟩ := copyLoop_clean sd dd o fs hO man
      { fs := makedirs fs dd, log := [] ++ [createdLine dd], calls := 0 + 1 }
      (fun _ _ => rfl)
      (by
        intro e he
        show memS (ancestors dd ++ fs.dirs) (srcPath sd e) = memS fs.dirs (srcPath sd e)
        rw [memS_append, hancR e he, Bool.false_or])
      hsf hni hmem
    have hmk := mkdirStep_clean_missing dd o { fs := fs, log := [], calls := 0 } hdd' (hO 0)
    have hlist := listStep_clean_dir dd o
      { fs := { dirs := (makedirs fs dd).dirs, files := foldWrites sd dd fs man (makedirs fs dd).files },
        log := ([] ++ [createdLine dd]) ++ List.map (entryLine sd dd fs) man, calls := n }
      (hO n) hmem
    refine ⟨n + 1, ?_⟩
    rw [finalState,
      afterTry_of_ok sd dd man o _ _ (tryRun_steps sd dd man o _ _ _ _ hmk hloop hlist)]
    simp only [logAfter, dirsAfter, filesAfter, if_neg hdd, makedirs, hmem]
    simp only [makedirs] at hmem
    simp [makedirs, listdir, fsAfter, dirsAfter, filesAfter, if_neg hdd, hmem]

/-! ### Lookup in the written files via the last write -/

theorem orO_none (a : Option String) : Option.or a none = a := by cases a <;> rfl

theorem some_orO (c : String) (a : Option String) : Option.or (some c) a = some c := rfl

theorem orO_assoc (a b c : Option String) :
    Option.or (Option.or a b) c = Option.or a (Option.or b c) := by
  cases a <;> rfl

theorem lookupF_foldWrites (sd dd : String) (fs0 : FS) (P : String) :
    ∀ (man : List (String × String)) (fl : List (String × String)),
    lookupF (foldWrites sd dd fs0 man fl) P =
      Option.or (lastWrite sd dd fs0 P man) (lookupF fl P) := by
  intro man
  induction man with
  | nil => intro fl; rfl
  | cons e rest ih =>
    intro fl
    cases hc : lookupF fs0.files (srcPath sd e) with
    | none =>
      simp only [foldWrites, hc, lastWrite, ih, orO_none]
    | some c =>
      simp only [foldWrites, hc, lastWrite, ih, orO_assoc]
      by_cases hP : dstPath dd e = P
      · rw [if_pos hP, hP, lookupF_setFile_self, some_orO]
      · rw [if_neg hP, lookupF_setFile_ne fl (dstPath dd e) c P
          (fun hh : P = dstPath dd e => hP hh.symm)]
        rfl

theorem lastWrite_none (sd dd : String) (fs0 : FS) (P : String)
    (man : List (String × String)) (h : ∀ e ∈ man, dstPath dd e ≠ P) :
    lastWrite sd dd fs0 P man = none := by
  induction man with
  | nil => rfl
  | cons e rest ih =>
    have hrest := ih (fun f hf => h f (List.mem_cons_of_mem e hf))
    simp only [lastWrite, hrest]
    cases hc : lookupF fs0.files (srcPath sd e) with
    | none => rfl
    | some c =>
      simp only [if_neg (h e (List.mem_cons_self e rest))]
      rfl

theorem lastWrite_opts (sd dd : String) (fs0 : FS) (P c : String) :
    ∀ (man : List (String × String)),
    (∀ e ∈ man, dstPath dd e = P → lookupF fs0.files (srcPath sd e) = some c) →
    lastWrite sd dd fs0 P man = none ∨ lastWrite sd dd fs0 P man = some c := by
  intro man
  induction man with
  | nil => intro _; exact Or.inl rfl
  | cons e rest ih =>
    intro hall
    have hrest := ih (fun f hf hd => hall f (List.mem_cons_of_mem e hf) hd)
    have hthis : (match lookupF fs0.files (srcPath sd e) with
        | some c0 => if dstPath dd e = P then some c0 else none
        | none => (none : Option String)) = none ∨
        (match lookupF fs0.files (srcPath sd e) with
        | some c0 => if dstPath dd e = P then some c0 else none
        | none => (none : Option String)) = some c := by
      by_cases hd : dstPath dd e = P
      · rw [hall e (List.mem_cons_self e rest) hd]
        exact Or.inr (if_pos hd)
      · cases hc : lookupF fs0.files (srcPath sd e) with
        | none => exact Or.inl rfl
        | some c0 => exact Or.inl (if_neg hd)
    rcases hrest with h1 | h1 <;> rcases hthis with h2 | h2 <;>
      simp only [lastWrite, h1, h2] <;> first | exact Or.inl rfl | exact Or.inr rfl

theorem lastWrite_last (sd dd : String) (fs0 : FS) (c : String) (s d : String) :
    ∀ (man : List (String × String)), (s, d) ∈ man →
    lookupF fs0.files (srcPath sd (s, d)) = some c →
    (∀ e ∈ man, dstPath dd e = dstPath dd (s, d) →
      lookupF fs0.files (srcPath sd e) = some c) →
    lastWrite sd dd fs0 (dstPath dd (s, d)) man = some c := by
  intro man
  induction man with
  | nil => intro hmem; exact absurd hmem (List.not_mem_nil _)
  | cons e rest ih =>
    intro hmem hc hall
    rcases List.mem_cons.mp hmem with heq | hmem'
    · rcases lastWrite_opts sd dd fs0 (dstPath dd (s, d)) c rest
        (fun f hf hd => hall f (List.mem_cons_of_mem e hf) hd) with h1 | h1 <;>
      · simp only [lastWrite, h1, ← heq, hc, if_pos rfl]
        rfl
    · have h1 := ih hmem' hc (fun f hf hd => hall f (List.mem_cons_of_mem e hf) hd)
      simp only [lastWrite, h1, some_orO]

theorem lastWrite_congr (sd dd : String) (fsA fsB : FS) (P : String) :
    ∀ (man : List (String × String)),
    (∀ e ∈ man, lookupF fsA.files (srcPath sd e) = lookupF fsB.files (srcPath sd e)) →
    lastWrite sd dd fsA P man = lastWrite sd dd fsB P man := by
  intro man
  induction man with
  | nil => intro _; rfl
  | cons e rest ih =>
    intro h
    simp only [lastWrite, ih (fun f hf => h f (List.mem_cons_of_mem e hf)),
      h e (List.mem_cons_self e rest)]

/-! ### Per-entry log lines under an arbitrary oracle -/

theorem forall2_mem {α β : Type} {R : α → β → Prop} :
    ∀ {as : List α} {bs : List β}, List.Forall₂ R as bs → ∀ b ∈ bs, ∃ a ∈ as, R a b := by
  intro as bs h
  induction h with
  | nil => intro b hb; exact absurd hb (List.not_mem_nil _)
  | cons h1 _ ih =>
    intro b hb
    rcases List.mem_cons.mp hb with heq | hb'
    · exact ⟨_, List.mem_cons_self _ _, heq ▸ h1⟩
    · obtain ⟨a, ha, hr⟩ := ih b hb'
      exact ⟨a, List.mem_cons_of_mem _ ha, hr⟩

theorem copyStep_oracle_err (sd dd : String) (o : Oracle) (e : String × String) (st : St)
    (msg : String) (hex : pathExists st.fs (srcPath sd e) = true)
    (ho : o st.calls = some msg) :
    copyStep sd dd o e st = .error ({ st with calls := st.calls + 1 }, msg) := by
  simp [copyStep, hex, osCall, ho]

theorem copyStep_isdir_err (sd dd : String) (o : Oracle) (e : String × String) (st : St)
    (hex : pathExists st.fs (srcPath sd e) = true) (ho : o st.calls = none)
    (hc : lookupF st.fs.files (srcPath sd e) = none) :
    copyStep sd dd o e st = .error ({ st with calls := st.calls + 1 },
      isADirMsg (srcPath sd e)) := by
  simp [copyStep, hex, osCall, ho, hc]

theorem copyLoop_cons_err (sd dd : String) (o : Oracle) (e : String × String)
    (rest : List (String × String)) (st : St) (err : St × String)
    (h : copyStep sd dd o e st = .error err) :
    copyLoop sd dd o (e :: rest) st = .error err := by
  simp only [copyLoop, h]

theorem copyLoop_lines (sd dd : String) (o : Oracle) :
    ∀ (man : List (String × String)) (st : St),
    ∃ k L, k ≤ man.length ∧
      (outSt (copyLoop sd dd o man st)).log = st.log ++ L ∧
      List.Forall₂ (fun e l => l = copiedLine (srcPath sd e) (dstPath dd e) ∨
        l = notFoundLine (srcPath sd e)) (man.take k) L ∧
      (outSt (copyLoop sd dd o man st)).fs.dirs = st.fs.dirs ∧
      ((∃ stOk, copyLoop sd dd o man st = .ok stOk) → k = man.length) := by
  intro man
  induction man with
  | nil =>
    intro st
    exact ⟨0, [], Nat.le_refl 0, by simp [copyLoop, outSt], List.Forall₂.nil, rfl,
      fun _ => rfl⟩
  | cons e rest ih =>
    intro st
    by_cases hex : pathExists st.fs (srcPath sd e) = true
    · cases ho : o st.calls with
      | some msg =>
        have herr := copyLoop_cons_err sd dd o e rest st _
          (copyStep_oracle_err sd dd o e st msg hex ho)
        refine ⟨0, [], Nat.zero_le _, ?_, List.Forall₂.nil, ?_, ?_⟩
        · simp [herr, outSt]
        · simp [herr, outSt]
        · rintro ⟨stOk, hok⟩
          rw [herr] at hok
          exact Except.noConfusion hok
      | none =>
        cases hc : lookupF st.fs.files (srcPath sd e) with
        | none =>
          have herr := copyLoop_cons_err sd dd o e rest st _
            (copyStep_isdir_err sd dd o e st hex ho hc)
          refine ⟨0, [], Nat.zero_le _, ?_, List.Forall₂.nil, ?_, ?_⟩
          · simp [herr, outSt]
          · simp [herr, outSt]
          · rintro ⟨stOk, hok⟩
            rw [herr] at hok
            exact Except.noConfusion hok
        | some c =>
          by_cases hm : memS st.fs.dirs dd = true
          · obtain ⟨k, L, hk, hlog, hfa, hdirs, hcomp⟩ := ih
              { fs := { dirs := st.fs.dirs, files := setFile st.fs.files (dstPath dd e) c },
                log := st.log ++ [copiedLine (srcPath sd e) (dstPath dd e)],
                calls := st.calls + 1 }
            refine ⟨k + 1, copiedLine (srcPath sd e) (dstPath dd e) :: L,
              Nat.succ_le_succ hk, ?_, ?_, ?_, ?_⟩
            · simp only [copyLoop, copyStep_clean_copy sd dd o e st c ho hc hm, hlog]
              simp
            · rw [List.take_succ_cons]
              exact List.Forall₂.cons (Or.inl rfl) hfa
            · simp only [copyLoop, copyStep_clean_copy sd dd o e st c ho hc hm, hdirs]
            · rintro ⟨stOk, hok⟩
              simp only [copyLoop, copyStep_clean_copy sd dd o e st c ho hc hm] at hok
              rw [List.length_cons, hcomp ⟨stOk, hok⟩]
          · have hm' : memS st.fs.dirs dd = false := by
              cases h : memS st.fs.dirs dd
              · rfl
              · exact absurd h hm
            by_cases hp : pathExists st.fs dd = true
            · have herr := copyLoop_cons_err sd dd o e rest st _
                (copyStep_dstnotdir sd dd o e st c ho hc hm' hp)
              refine ⟨0, [], Nat.zero_le _, ?_, List.Forall₂.nil, ?_, ?_⟩
              · simp [herr, outSt]
              · simp [herr, outSt]
              · rintro ⟨stOk, hok⟩
                rw [herr] at hok
                exact Except.noConfusion hok
            · have hp' : pathExists st.fs dd = false := by
                cases h : pathExists st.fs dd
                · rfl
                · exact absurd h hp
              have herr := copyLoop_cons_err sd dd o e rest st _
                (copyStep_dstmissing sd dd o e st c ho hc hm' hp')
              refine ⟨0, [], Nat.zero_le _, ?_, List.Forall₂.nil, ?_, ?_⟩
              · simp [herr, outSt]
              · simp [herr, outSt]
              · rintro ⟨stOk, hok⟩
                rw [herr] at hok
                exact Except.noConfusion hok
    · have hex' : pathExists st.fs (srcPath sd e) = false := by
        cases h : pathExists st.fs (srcPath sd e)
        · rfl
        · exact absurd h hex
      obtain ⟨k, L, hk, hlog, hfa, hdirs, hcomp⟩ := ih
        { st with log := st.log ++ [notFoundLine (srcPath sd e)] }
      refine ⟨k + 1, notFoundLine (srcPath sd e) :: L,
        Nat.succ_le_succ hk, ?_, ?_, ?_, ?_⟩
      · simp only [copyLoop, copyStep_notfound sd dd o e st hex', hlog]
        simp
      · rw [List.take_succ_cons]
        exact List.Forall₂.cons (Or.inr rfl) hfa
      · simp only [copyLoop, copyStep_notfound sd dd o e st hex', hdirs]
      · rintro ⟨stOk, hok⟩
        simp only [copyLoop, copyStep_notfound sd dd o e st hex'] at hok
        rw [List.length_cons, hcomp ⟨stOk, hok⟩]

theorem afterTry_shape_of_mkdir (sd dd : String) (man : List (String × String)) (o : Oracle)
    (st st1 : St) (hO : ∀ n, o n = none) (hmk : mkdirStep dd o st = .ok st1) :
    ∃ L post,
      (afterTry sd dd man o st).fs.dirs = st1.fs.dirs ∧
      (afterTry sd dd man o st).log = st1.log ++ L ++ post ∧
      (∀ l ∈ L, ∃ e ∈ man, l = copiedLine (srcPath sd e) (dstPath dd e) ∨
        l = notFoundLine (srcPath sd e)) ∧
      (∀ l ∈ post, l = contentsHeader ∨ (∃ ns, l = pyListRepr ns) ∨ ∃ m, l = errorLine m) := by
  obtain ⟨k, L, hk, hlog, hfa, hdirs, _⟩ := copyLoop_lines sd dd o man st1
  have hmemL : ∀ l ∈ L, ∃ e ∈ man, l = copiedLine (srcPath sd e) (dstPath dd e) ∨
      l = notFoundLine (srcPath sd e) := by
    intro l hl
    obtain ⟨e, he, hr⟩ := forall2_mem hfa l hl
    exact ⟨e, List.take_subset k man he, hr⟩
  cases hres : copyLoop sd dd o man st1 with
  | error err =>
    obtain ⟨stE, msg⟩ := err
    rw [hres] at hlog hdirs
    simp only [outSt] at hlog hdirs
    have h1 := afterTry_of_err sd dd man o st stE msg
      (tryRun_loop_err sd dd man o st st1 (stE, msg) hmk hres)
    refine ⟨L, [errorLine msg], ?_, ?_, hmemL, ?_⟩
    · rw [h1]
      exact hdirs
    · rw [h1]
      show stE.log ++ [errorLine msg] = st1.log ++ L ++ [errorLine msg]
      rw [hlog]
    · intro l hl
      rcases List.mem_singleton.mp hl with rfl
      exact Or.inr (Or.inr ⟨msg, rfl⟩)
  | ok st2 =>
    rw [hres] at hlog hdirs
    simp only [outSt] at hlog hdirs
    by_cases hm : memS st2.fs.dirs dd = true
    · have hlist := listStep_clean_dir dd o st2 (hO st2.calls) hm
      have h1 := afterTry_of_ok sd dd man o st _
        (tryRun_steps sd dd man o st st1 st2 _ hmk hres hlist)
      refine ⟨L, [contentsHeader, pyListRepr (listdir st2.fs dd)], ?_, ?_, hmemL, ?_⟩
      · rw [h1]
        exact hdirs
      · rw [h1]
        show st2.log ++ [contentsHeader, pyListRepr (listdir st2.fs dd)] = _
        rw [hlog, List.append_assoc]
      · intro l hl
        rcases List.mem_cons.mp hl with rfl | hl'
        · exact Or.inl rfl
        · rcases List.mem_singleton.mp hl' with rfl
          exact Or.inr (Or.inl ⟨listdir st2.fs dd, rfl⟩)
    · have hm' : memS st2.fs.dirs dd = false := by
        cases h : memS st2.fs.dirs dd
        · rfl
        · exact absurd h hm
      have hlist := listStep_clean_nondir dd o st2 (hO st2.calls) hm'
      have h1 := afterTry_of_err sd dd man o st _ _
        (tryRun_steps sd dd man o st st1 st2 _ hmk hres hlist)
      refine ⟨L, [contentsHeader, errorLine (notADirMsg dd)], ?_, ?_, hmemL, ?_⟩
      · rw [h1]
        exact hdirs
      · rw [h1]
        show (st2.log ++ [contentsHeader]) ++ [errorLine (notADirMsg dd)] = _
        rw [hlog]
        simp
      · intro l hl
        rcases List.mem_cons.mp hl with rfl | hl'
        · exact Or.inl rfl
        · rcases List.mem_singleton.mp hl' with rfl
          exact Or.inr (Or.inr ⟨notADirMsg dd, rfl⟩)

theorem finalState_clean_shape (sd dd : String) (man : List (String × String)) (o : Oracle)
    (fs : FS) (hO : ∀ n, o n = none) :
    ∃ L post,
      (finalState sd dd man o fs).fs.dirs = dirsAfter dd fs ∧
      (finalState sd dd man o fs).log =
        (if pathExists fs dd then ([] : List String) else [createdLine dd]) ++ L ++ post ∧
      (∀ l ∈ L, ∃ e ∈ man, l = copiedLine (srcPath sd e) (dstPath dd e) ∨
        l = notFoundLine (srcPath sd e)) ∧
      (∀ l ∈ post, l = contentsHeader ∨ (∃ ns, l = pyListRepr ns) ∨ ∃ m, l = errorLine m) := by
  by_cases hdd : pathExists fs dd = true
  · obtain ⟨L, post, h1, h2, h3, h4⟩ := afterTry_shape_of_mkdir sd dd man o
      { fs := fs, log := [], calls := 0 } _ hO
      (mkdirStep_exists dd o { fs := fs, log := [], calls := 0 } hdd)
    refine ⟨L, post, ?_, ?_, h3, h4⟩
    · rw [finalState, h1, dirsAfter, if_pos hdd]
    · rw [finalState, h2, if_pos hdd]
  · have hdd' : pathExists fs dd = false := by
      cases h : pathExists fs dd
      · rfl
      · exact absurd h hdd
    obtain ⟨L, post, h1, h2, h3, h4⟩ := afterTry_shape_of_mkdir sd dd man o
      { fs := fs, log := [], calls := 0 } _ hO
      (mkdirStep_clean_missing dd o { fs := fs, log := [], calls := 0 } hdd' (hO 0))
    refine ⟨L, post, ?_, ?_, h3, h4⟩
    · rw [finalState, h1, dirsAfter, if_neg hdd]
      rfl
    · rw [finalState, h2, if_neg hdd]
      simp

theorem run_clean (sd dd : String) (man : List (String × String)) (o : Oracle)
    (fs : FS) (hO : ∀ n, o n = none)
    (hsf : ∀ e ∈ man, pathExists fs (srcPath sd e) = true →
      (lookupF fs.files (srcPath sd e)).isSome = true)
    (hni : ∀ e ∈ man, ∀ f ∈ man, srcPath sd e ≠ dstPath dd f)
    (hanc : pathExists fs dd = true ∨
      ∀ e ∈ man, memS (ancestors dd) (srcPath sd e) = false)
    (hdir : memS fs.dirs dd = true ∨ pathExists fs dd = false) :
    run sd dd man o fs = .ok
      ({ dirs := dirsAfter dd fs,
         files := setFile (filesAfter sd dd man fs) logPath
           (String.intercalate "\n" (logAfter sd dd man fs)) },
       logAfter sd dd man fs) := by
  obtain ⟨n, hfin⟩ := finalState_clean sd dd man o fs hO hsf hni hanc hdir
  rw [run, hfin]
  simp [hO n]

theorem memS_of_mem : ∀ (l : List String) (q : String), q ∈ l → memS l q = true := by
  intro l q h
  induction l with
  | nil => exact absurd h (List.not_mem_nil q)
  | cons x rest ih =>
    by_cases hx : x = q
    · rw [memS, if_pos hx]
    · rcases List.mem_cons.mp h with heq | hmem
      · exact absurd heq.symm hx
      · rw [memS, if_neg hx]
        exact ih hmem

theorem isSome_orO_right (a b : Option String) (h : b.isSome = true) :
    (Option.or a b).isSome = true := by
  cases a
  · exact h
  · rfl

theorem entryLine_ne_createdLine (sd dd : String) (fs0 : FS) (e : String × String)
    (d : String) : entryLine sd dd fs0 e ≠ createdLine d := by
  rw [entryLine]
  by_cases h : pathExists fs0 (srcPath sd e) = true
  · rw [if_pos h]
    exact copiedLine_ne_createdLine _ _ _
  · rw [if_neg h]
    exact notFoundLine_ne_createdLine _ _

theorem mkdirStep_oracle_err (dd : String) (o : Oracle) (st : St) (msg : String)
    (h : pathExists st.fs dd = false) (ho : o st.calls = some msg) :
    mkdirStep dd o st = .error ({ st with calls := st.calls + 1 }, msg) := by
  simp [mkdirStep, h, osCall, ho]

theorem listStep_oracle_err (dd : String) (o : Oracle) (st : St) (msg : String)
    (ho : o st.calls = some msg) :
    listStep dd o st = .error
      ({ fs := st.fs, log := st.log ++ [contentsHeader], calls := st.calls + 1 }, msg) := by
  simp [listStep, osCall, ho]

theorem lastWrite_none_of_missing (sd dd : String) (fs0 : FS) (P : String) :
    ∀ (man : List (String × String)),
    (∀ e ∈ man, dstPath dd e = P → lookupF fs0.files (srcPath sd e) = none) →
    lastWrite sd dd fs0 P man = none := by
  intro man
  induction man with
  | nil => intro _; rfl
  | cons e rest ih =>
    intro h
    have hrest := ih (fun f hf hd => h f (List.mem_cons_of_mem e hf) hd)
    have hthis : (match lookupF fs0.files (srcPath sd e) with
        | some c0 => if dstPath dd e = P then some c0 else none
        | none => (none : Option String)) = none := by
      by_cases hd : dstPath dd e = P
      · rw [h e (List.mem_cons_self e rest) hd]
      · cases hc : lookupF fs0.files (srcPath sd e) with
        | none => rfl
        | some c0 => exact if_neg hd
    simp only [lastWrite, hrest, hthis]
    rfl

/-! ### Claim theorems -/

/-- Claim C1: for every manifest entry whose source path exists (as a file with
content `c`) when it is processed, a failure-free run copies the source
file's bytes to the destination path built by joining the destination
directory with the entry's destination name, overwriting any existing file
there, so that after the run the destination file's content is
byte-identical to the source; and the entry contributes exactly one log
line, the one recording the copy.  Side conditions make "byte-identical to
the source" well defined: no source path is also a destination path or an
ancestor of the destination directory, entries aliasing this destination
read the same content, the destination is not the log file itself, and the
destination directory is a directory or absent (shutil.copy cannot write
under a non-directory; that case is claim C10). -/
theorem C1_copy_correct (sd dd : String) (man : List (String × String)) (o : Oracle)
    (fs : FS) (s d c : String)
    (hO : ∀ n, o n = none)
    (hmem : (s, d) ∈ man)
    (hsrc : lookupF fs.files (srcPath sd (s, d)) = some c)
    (hsf : ∀ e ∈ man, pathExists fs (srcPath sd e) = true →
      (lookupF fs.files (srcPath sd e)).isSome = true)
    (hni : ∀ e ∈ man, ∀ f ∈ man, srcPath sd e ≠ dstPath dd f)
    (hanc : pathExists fs dd = true ∨
      ∀ e ∈ man, memS (ancestors dd) (srcPath sd e) = false)
    (hdir : memS fs.dirs dd = true ∨ pathExists fs dd = false)
    (huniq : ∀ e ∈ man, dstPath dd e = dstPath dd (s, d) →
      lookupF fs.files (srcPath sd e) = some c)
    (hlp : dstPath dd (s, d) ≠ logPath) :
    ∃ F, run sd dd man o fs = .ok (F, logAfter sd dd man fs) ∧
      lookupF F.files (dstPath dd (s, d)) = some c ∧
      entryLine sd dd fs (s, d) = copiedLine (srcPath sd (s, d)) (dstPath dd (s, d)) ∧
      ∃ pre post, logAfter sd dd man fs =
        pre ++ List.map (entryLine sd dd fs) man ++ post := by
  refine ⟨_, run_clean sd dd man o fs hO hsf hni hanc hdir, ?_, ?_, ?_⟩
  · show lookupF (setFile (filesAfter sd dd man fs) logPath
      (String.intercalate "\n" (logAfter sd dd man fs))) (dstPath dd (s, d)) = some c
    rw [lookupF_setFile_ne _ _ _ _ hlp, filesAfter, lookupF_foldWrites,
      lastWrite_last sd dd fs c s d man hmem hsrc huniq, some_orO]
  · rw [entryLine, if_pos]
    rw [pathExists, hsrc]
    simp
  · exact ⟨_, _, rfl⟩

/-- Manifest for the C1 and C2 witnesses. -/
def w1man : List (String × String) := [("a", "x"), ("b", "y")]

/-- Initial file system for the C1 witness: the destination directory
exists, source `a` exists, source `b` does not. -/
def w1fs : FS := { dirs := ["/d/"], files := [("/s/a", "AA")] }

/-- Witness for claim C1: in a concrete failure-free run, the existing source is
copied byte-identically and its copy line is logged. -/
theorem C1_witness :
    (("a", "x") ∈ w1man) ∧
    lookupF w1fs.files (srcPath "/s/" ("a", "x")) = some "AA" ∧
    (∃ F, run "/s/" "/d/" w1man noErr w1fs = .ok (F, logAfter "/s/" "/d/" w1man w1fs) ∧
      lookupF F.files (dstPath "/d/" ("a", "x")) = some "AA" ∧
      entryLine "/s/" "/d/" w1fs ("a", "x") =
        copiedLine (srcPath "/s/" ("a", "x")) (dstPath "/d/" ("a", "x")) ∧
      ∃ pre post, logAfter "/s/" "/d/" w1man w1fs =
        pre ++ List.map (entryLine "/s/" "/d/" w1fs) w1man ++ post) :=
  ⟨by decide, rfl,
    C1_copy_correct "/s/" "/d/" w1man noErr w1fs "a" "x" "AA"
      (fun _ => rfl) (by decide) rfl (by decide) (by decide) (Or.inl rfl)
      (Or.inl rfl) (by decide) (by decide)⟩

/-- Claim C2: for every manifest entry whose source path does not exist, a
failure-free run appends a log line identifying that specific full source
path as not found, creates no file at the corresponding destination path
(its content is unchanged), and continues processing the remaining entries
— the run still completes and every manifest entry still contributes its
own log line.  Side conditions as in C1 (including the destination
directory being a directory or absent), plus: every entry aliasing this
destination also has a missing source. -/
theorem C2_missing_source (sd dd : String) (man : List (String × String)) (o : Oracle)
    (fs : FS) (s d : String)
    (hO : ∀ n, o n = none)
    (hmem : (s, d) ∈ man)
    (hmiss : pathExists fs (srcPath sd (s, d)) = false)
    (hsf : ∀ e ∈ man, pathExists fs (srcPath sd e) = true →
      (lookupF fs.files (srcPath sd e)).isSome = true)
    (hni : ∀ e ∈ man, ∀ f ∈ man, srcPath sd e ≠ dstPath dd f)
    (hanc : pathExists fs dd = true ∨
      ∀ e ∈ man, memS (ancestors dd) (srcPath sd e) = false)
    (hdir : memS fs.dirs dd = true ∨ pathExists fs dd = false)
    (hothers : ∀ e ∈ man, dstPath dd e = dstPath dd (s, d) →
      lookupF fs.files (srcPath sd e) = none)
    (hlp : dstPath dd (s, d) ≠ logPath) :
    ∃ F, run sd dd man o fs = .ok (F, logAfter sd dd man fs) ∧
      notFoundLine (srcPath sd (s, d)) ∈ logAfter sd dd man fs ∧
      lookupF F.files (dstPath dd (s, d)) = lookupF fs.files (dstPath dd (s, d)) ∧
      entryLine sd dd fs (s, d) = notFoundLine (srcPath sd (s, d)) ∧
      ∃ pre post, logAfter sd dd man fs =
        pre ++ List.map (entryLine sd dd fs) man ++ post := by
  have hline : entryLine sd dd fs (s, d) = notFoundLine (srcPath sd (s, d)) := by
    rw [entryLine, if_neg]
    intro hh
    exact Bool.false_ne_true (hmiss.symm.trans hh)
  refine ⟨_, run_clean sd dd man o fs hO hsf hni hanc hdir, ?_, ?_, hline, ⟨_, _, rfl⟩⟩
  · rw [logAfter]
    refine List.mem_append.mpr (Or.inl (List.mem_append.mpr (Or.inr ?_)))
    rw [← hline]
    exact List.mem_map_of_mem (entryLine sd dd fs) hmem
  · show lookupF (setFile (filesAfter sd dd man fs) logPath
      (String.intercalate "\n" (logAfter sd dd man fs))) (dstPath dd (s, d)) =
      lookupF fs.files (dstPath dd (s, d))
    rw [lookupF_setFile_ne _ _ _ _ hlp, filesAfter, lookupF_foldWrites,
      lastWrite_none_of_missing sd dd fs (dstPath dd (s, d)) man hothers]
    rfl

/-- Initial file system for the C2 witness: the destination directory
exists, and neither source file does. -/
def w2fs : FS := { dirs := ["/d/"], files := [] }

/-- Witness for claim C2: a concrete run in which a missing source is logged as not
found, its destination is not created, and the other entry is still
processed. -/
theorem C2_witness :
    (("b", "y") ∈ w1man) ∧
    pathExists w2fs (srcPath "/s/" ("b", "y")) = false ∧
    (∃ F, run "/s/" "/d/" w1man noErr w2fs = .ok (F, logAfter "/s/" "/d/" w1man w2fs) ∧
      notFoundLine (srcPath "/s/" ("b", "y")) ∈ logAfter "/s/" "/d/" w1man w2fs ∧
      lookupF F.files (dstPath "/d/" ("b", "y")) =
        lookupF w2fs.files (dstPath "/d/" ("b", "y")) ∧
      entryLine "/s/" "/d/" w2fs ("b", "y") = notFoundLine (srcPath "/s/" ("b", "y")) ∧
      ∃ pre post, logAfter "/s/" "/d/" w1man w2fs =
        pre ++ List.map (entryLine "/s/" "/d/" w2fs) w1man ++ post) :=
  ⟨by decide, rfl,
    C2_missing_source "/s/" "/d/" w1man noErr w2fs "b" "y"
      (fun _ => rfl) (by decide) rfl (by decide) (by decide) (Or.inl rfl)
      (Or.inl rfl) (by decide) (by decide)⟩

/-- Claim C3: if an unexpected failure occurs at any step of the try block, all
remaining processing is aborted, the final log contains exactly the lines
accumulated before the failure plus one line recording the error's message
text, and the log file is still written with that content (the final write
itself being the one step outside the try block, it is assumed to succeed). -/
theorem C3_failure_logged_and_written (sd dd : String) (man : List (String × String))
    (o : Oracle) (fs : FS) (stE : St) (msg : String)
    (hfail : tryRun sd dd man o { fs := fs, log := [], calls := 0 } = .error (stE, msg))
    (hw : o stE.calls = none) :
    run sd dd man o fs = .ok
      ({ stE.fs with files := (setFile stE.fs.files logPath
          (String.intercalate "\n" (stE.log ++ [errorLine msg]))) },
       stE.log ++ [errorLine msg]) := by
  have h1 := afterTry_of_err sd dd man o _ stE msg hfail
  simp only [run, finalState, h1, hw]

/-- Oracle for the C3 witness: the very first OS call fails. -/
def c3o : Oracle := fun n => if n = 0 then some "boom" else none

/-- Witness for claim C3: a concrete run in which creating the destination directory
fails; the log holds exactly the error line and is written out. -/
theorem C3_witness :
    tryRun "/s/" "/d/" [] c3o { fs := { dirs := [], files := [] }, log := [], calls := 0 } =
      .error ({ fs := { dirs := [], files := [] }, log := [], calls := 1 }, "boom") ∧
    c3o 1 = none ∧
    run "/s/" "/d/" [] c3o { dirs := [], files := [] } = .ok
      ({ dirs := [], files := setFile [] logPath
          (String.intercalate "\n" ([] ++ [errorLine "boom"])) },
       [] ++ [errorLine "boom"]) :=
  ⟨rfl, rfl,
    C3_failure_logged_and_written "/s/" "/d/" [] c3o { dirs := [], files := [] }
      { fs := { dirs := [], files := [] }, log := [], calls := 1 } "boom" rfl rfl⟩

/-- Oracle for the C4 counterexample: the second OS call (here, the final
write of the log file) fails. -/
def c4o : Oracle := fun n => if n = 1 then some "disk full" else none

/-- Claim C4 is false as stated: when writing the log file itself fails, the error
is NOT caught — the script's final write is outside the try block — so the
run propagates the error to the caller and no log file is produced. -/
theorem C4_counterexample :
    run "/s/" "/d/" [] c4o { dirs := ["/d/"], files := [] } = .error "disk full" := rfl

/-- Claim C4 (amended): every error raised inside the try block (directory
creation, copying, listing) is caught internally, and provided the final
write of the log file succeeds, the run terminates normally and the log
file is produced. -/
theorem C4_amended_total (sd dd : String) (man : List (String × String)) (o : Oracle)
    (fs : FS) (hw : o ((finalState sd dd man o fs).calls) = none) :
    run sd dd man o fs = .ok
      ({ (finalState sd dd man o fs).fs with
          files := (setFile (finalState sd dd man o fs).fs.files logPath
            (String.intercalate "\n" (finalState sd dd man o fs).log)) },
       (finalState sd dd man o fs).log) ∧
    lookupF (setFile (finalState sd dd man o fs).fs.files logPath
        (String.intercalate "\n" (finalState sd dd man o fs).log)) logPath =
      some (String.intercalate "\n" (finalState sd dd man o fs).log) := by
  constructor
  · simp only [run, hw]
  · exact lookupF_setFile_self _ _ _

/-- Witness for claim C4: the amended statement at a concrete input (an error is
raised inside the try block and still the run completes and writes the log). -/
theorem C4_amended_witness :
    c3o ((finalState "/x/" "/y/" [] c3o { dirs := [], files := [] }).calls) = none ∧
    (run "/x/" "/y/" [] c3o { dirs := [], files := [] } = .ok
      ({ (finalState "/x/" "/y/" [] c3o { dirs := [], files := [] }).fs with
          files := (setFile (finalState "/x/" "/y/" [] c3o { dirs := [], files := [] }).fs.files
            logPath (String.intercalate "\n"
              (finalState "/x/" "/y/" [] c3o { dirs := [], files := [] }).log)) },
       (finalState "/x/" "/y/" [] c3o { dirs := [], files := [] }).log) ∧
    lookupF (setFile (finalState "/x/" "/y/" [] c3o { dirs := [], files := [] }).fs.files
        logPath (String.intercalate "\n"
          (finalState "/x/" "/y/" [] c3o { dirs := [], files := [] }).log)) logPath =
      some (String.intercalate "\n"
        (finalState "/x/" "/y/" [] c3o { dirs := [], files := [] }).log)) :=
  ⟨rfl, C4_amended_total "/x/" "/y/" [] c3o { dirs := [], files := [] } rfl⟩

/-- Claim C8: at the end of every run whose final write call succeeds, the full
accumulated log — and nothing else — is written, lines joined by a single
newline, to the fixed output path `copy_log.txt`, overwriting any previous
content of that file; no other file is touched by the write. -/
theorem C8_log_written (sd dd : String) (man : List (String × String)) (o : Oracle)
    (fs : FS) (hw : o ((finalState sd dd man o fs).calls) = none) :
    ∃ F, run sd dd man o fs = .ok (F, (finalState sd dd man o fs).log) ∧
      lookupF F.files logPath =
        some (String.intercalate "\n" (finalState sd dd man o fs).log) ∧
      ∀ p, p ≠ logPath → lookupF F.files p =
        lookupF (finalState sd dd man o fs).fs.files p := by
  refine ⟨{ (finalState sd dd man o fs).fs with
      files := (setFile (finalState sd dd man o fs).fs.files logPath
        (String.intercalate "\n" (finalState sd dd man o fs).log)) }, ?_, ?_, ?_⟩
  · simp only [run, hw]
  · exact lookupF_setFile_self _ _ _
  · intro p hp
    exact lookupF_setFile_ne _ _ _ p hp

/-- Witness for claim C8: a concrete run (one copied file, a stale log file present)
whose log file afterwards holds exactly the newline-joined log, with the
stale content overwritten. -/
theorem C8_witness :
    noErr ((finalState "/s/" "/d/" [("a", "b")] noErr
      { dirs := ["/d/"], files := [("/s/a", "AA"), (logPath, "stale")] }).calls) = none ∧
    ∃ F, run "/s/" "/d/" [("a", "b")] noErr
        { dirs := ["/d/"], files := [("/s/a", "AA"), (logPath, "stale")] } =
        .ok (F, (finalState "/s/" "/d/" [("a", "b")] noErr
          { dirs := ["/d/"], files := [("/s/a", "AA"), (logPath, "stale")] }).log) ∧
      lookupF F.files logPath = some (String.intercalate "\n"
        (finalState "/s/" "/d/" [("a", "b")] noErr
          { dirs := ["/d/"], files := [("/s/a", "AA"), (logPath, "stale")] }).log) ∧
      ∀ p, p ≠ logPath → lookupF F.files p =
        lookupF (finalState "/s/" "/d/" [("a", "b")] noErr
          { dirs := ["/d/"], files := [("/s/a", "AA"), (logPath, "stale")] }).fs.files p :=
  ⟨rfl, C8_log_written "/s/" "/d/" [("a", "b")] noErr
    { dirs := ["/d/"], files := [("/s/a", "AA"), (logPath, "stale")] } rfl⟩

/-- Claim C5: under a failure-free oracle, if the destination directory does not
exist before a run it is created — including any missing parent segments —
and exists after the run, and the final log records its creation exactly
once; if it already exists before the run, the directory list is unchanged
and the log contains no creation line. -/
theorem C5_mkdir_once (sd dd : String) (man : List (String × String)) (o : Oracle)
    (fs : FS) (hO : ∀ n, o n = none) :
    (pathExists fs dd = false →
      ∃ F L, run sd dd man o fs = .ok (F, L) ∧
        (∀ q ∈ ancestors dd, memS F.dirs q = true) ∧
        memS F.dirs dd = true ∧
        List.count (createdLine dd) L = 1) ∧
    (pathExists fs dd = true →
      ∃ F L, run sd dd man o fs = .ok (F, L) ∧
        F.dirs = fs.dirs ∧
        List.count (createdLine dd) L = 0) := by
  obtain ⟨L, post, hdirs, hlog, hL, hpost⟩ := finalState_clean_shape sd dd man o fs hO
  have hrun : run sd dd man o fs = .ok
      ({ (finalState sd dd man o fs).fs with
          files := (setFile (finalState sd dd man o fs).fs.files logPath
            (String.intercalate "\n" (finalState sd dd man o fs).log)) },
       (finalState sd dd man o fs).log) := by
    simp only [run, hO]
  have hnotL : createdLine dd ∉ L := by
    intro hmem
    obtain ⟨e, _, hor⟩ := hL _ hmem
    rcases hor with h | h
    · exact copiedLine_ne_createdLine _ _ dd h.symm
    · exact notFoundLine_ne_createdLine _ dd h.symm
  have hnotP : createdLine dd ∉ post := by
    intro hmem
    rcases hpost _ hmem with h | ⟨ns, h⟩ | ⟨m, h⟩
    · exact contentsHeader_ne_createdLine dd h.symm
    · exact pyListRepr_ne_createdLine ns dd h.symm
    · exact errorLine_ne_createdLine m dd h.symm
  constructor
  · intro hdd
    have hif : (if pathExists fs dd = true then ([] : List String)
        else [createdLine dd]) = [createdLine dd] := by
      rw [if_neg]
      intro hh
      exact Bool.false_ne_true (hdd.symm.trans hh)
    rw [hif] at hlog
    have hda : dirsAfter dd fs = ancestors dd ++ fs.dirs := by
      rw [dirsAfter, if_neg]
      intro hh
      exact Bool.false_ne_true (hdd.symm.trans hh)
    refine ⟨_, _, hrun, ?_, ?_, ?_⟩
    · intro q hq
      show memS (finalState sd dd man o fs).fs.dirs q = true
      rw [hdirs, hda, memS_append, memS_of_mem (ancestors dd) q hq]
      rfl
    · show memS (finalState sd dd man o fs).fs.dirs dd = true
      rw [hdirs, hda, memS_append, memS_ancestors_self]
      rfl
    · rw [hlog, List.count_append, List.count_append, List.count_eq_zero.mpr hnotL,
        List.count_eq_zero.mpr hnotP]
      simp [List.count_cons_self]
  · intro hdd
    have hif : (if pathExists fs dd = true then ([] : List String)
        else [createdLine dd]) = [] := if_pos hdd
    rw [hif] at hlog
    have hda : dirsAfter dd fs = fs.dirs := by rw [dirsAfter, if_pos hdd]
    refine ⟨_, _, hrun, ?_, ?_⟩
    · show (finalState sd dd man o fs).fs.dirs = fs.dirs
      rw [hdirs, hda]
    · rw [hlog, List.nil_append, List.count_append, List.count_eq_zero.mpr hnotL,
        List.count_eq_zero.mpr hnotP]

/-- Witness for claim C5: a concrete run creating a two-segment destination directory
and logging the creation exactly once. -/
theorem C5_witness :
    pathExists { dirs := [], files := [] } "/d/e/" = false ∧
    (∃ F L, run "/s/" "/d/e/" [] noErr { dirs := [], files := [] } = .ok (F, L) ∧
      (∀ q ∈ ancestors "/d/e/", memS F.dirs q = true) ∧
      memS F.dirs "/d/e/" = true ∧
      List.count (createdLine "/d/e/") L = 1) :=
  ⟨rfl, (C5_mkdir_once "/s/" "/d/e/" [] noErr { dirs := [], files := [] }
    (fun _ => rfl)).1 rfl⟩

/-- Claim C7: on a failure-free run, after all manifest entries are processed the
log gains the line "Destination contents:" followed by one line containing
the python str() of the entry names currently in the destination directory,
in the order the file system yields them; the listed state is the final
state of the run (up to the log file written afterwards). -/
theorem C7_listing (sd dd : String) (man : List (String × String)) (o : Oracle)
    (fs : FS) (hO : ∀ n, o n = none)
    (hsf : ∀ e ∈ man, pathExists fs (srcPath sd e) = true →
      (lookupF fs.files (srcPath sd e)).isSome = true)
    (hni : ∀ e ∈ man, ∀ f ∈ man, srcPath sd e ≠ dstPath dd f)
    (hanc : pathExists fs dd = true ∨
      ∀ e ∈ man, memS (ancestors dd) (srcPath sd e) = false)
    (hdd : memS fs.dirs dd = true ∨ pathExists fs dd = false) :
    ∃ F pre, run sd dd man o fs = .ok (F, logAfter sd dd man fs) ∧
      logAfter sd dd man fs = pre ++ [contentsHeader,
        pyListRepr (listdir (fsAfter sd dd man fs) dd)] ∧
      F.dirs = dirsAfter dd fs ∧
      (∀ p, p ≠ logPath → lookupF F.files p = lookupF (filesAfter sd dd man fs) p) := by
  have hm : memS (dirsAfter dd fs) dd = true := by
    rw [dirsAfter]
    by_cases hex : pathExists fs dd = true
    · rw [if_pos hex]
      rcases hdd with h | h
      · exact h
      · exact absurd hex (by rw [h]; exact Bool.false_ne_true)
    · rw [if_neg hex, memS_append, memS_ancestors_self]
      rfl
  refine ⟨_, (if pathExists fs dd = true then ([] : List String)
      else [createdLine dd]) ++ List.map (entryLine sd dd fs) man,
    run_clean sd dd man o fs hO hsf hni hanc hdd, ?_, rfl, ?_⟩
  · rw [logAfter, if_pos hm]
  · intro p hp
    exact lookupF_setFile_ne _ _ _ p hp

/-- Witness for claim C7: a concrete failure-free run whose log ends with the
contents header and the python repr of the destination listing. -/
theorem C7_witness :
    (∃ F pre, run "/s/" "/d/" w1man noErr w1fs = .ok (F, logAfter "/s/" "/d/" w1man w1fs) ∧
      logAfter "/s/" "/d/" w1man w1fs = pre ++ [contentsHeader,
        pyListRepr (listdir (fsAfter "/s/" "/d/" w1man w1fs) "/d/")] ∧
      F.dirs = dirsAfter "/d/" w1fs ∧
      (∀ p, p ≠ logPath → lookupF F.files p =
        lookupF (filesAfter "/s/" "/d/" w1man w1fs) p)) :=
  C7_listing "/s/" "/d/" w1man noErr w1fs (fun _ => rfl) (by decide) (by decide)
    (Or.inl rfl) (Or.inl rfl)

theorem errorLine_ne_contentsHeader (m : String) : errorLine m ≠ contentsHeader := by
  apply string_ne_of_get _ _ 0
  rw [errorLine_get0]
  decide

theorem afterTry_lines_of_mkdir (sd dd : String) (man : List (String × String)) (o : Oracle)
    (st st1 : St) (hmk : mkdirStep dd o st = .ok st1) :
    ∃ L post k, k ≤ man.length ∧
      (afterTry sd dd man o st).log = st1.log ++ L ++ post ∧
      List.Forall₂ (fun e l => l = copiedLine (srcPath sd e) (dstPath dd e) ∨
        l = notFoundLine (srcPath sd e)) (man.take k) L ∧
      ((∃ m, post = [errorLine m]) ∨ (∃ m, post = [contentsHeader, errorLine m]) ∨
        (∃ ns, post = [contentsHeader, pyListRepr ns])) ∧
      ((∃ tail, post = contentsHeader :: tail) → k = man.length) := by
  obtain ⟨k, L, hk, hlog, hfa, _, hcomp⟩ := copyLoop_lines sd dd o man st1
  cases hres : copyLoop sd dd o man st1 with
  | error err =>
    obtain ⟨stE, msg⟩ := err
    rw [hres] at hlog
    simp only [outSt] at hlog
    have h1 := afterTry_of_err sd dd man o st stE msg
      (tryRun_loop_err sd dd man o st st1 (stE, msg) hmk hres)
    refine ⟨L, [errorLine msg], k, hk, ?_, hfa, Or.inl ⟨msg, rfl⟩, ?_⟩
    · rw [h1]
      show stE.log ++ [errorLine msg] = st1.log ++ L ++ [errorLine msg]
      rw [hlog]
    · rintro ⟨tail, htail⟩
      injection htail with h2 _
      exact absurd h2 (errorLine_ne_contentsHeader msg)
  | ok st2 =>
    rw [hres] at hlog
    simp only [outSt] at hlog
    have hkfull : k = man.length := hcomp ⟨st2, hres⟩
    cases ho : o st2.calls with
    | some msg =>
      have hlist := listStep_oracle_err dd o st2 msg ho
      have h1 := afterTry_of_err sd dd man o st _ _
        (tryRun_steps sd dd man o st st1 st2 _ hmk hres hlist)
      refine ⟨L, [contentsHeader, errorLine msg], k, hk, ?_, hfa,
        Or.inr (Or.inl ⟨msg, rfl⟩), fun _ => hkfull⟩
      rw [h1]
      show (st2.log ++ [contentsHeader]) ++ [errorLine msg] = _
      rw [hlog]
      simp
    | none =>
      by_cases hm : memS st2.fs.dirs dd = true
      · have hlist := listStep_clean_dir dd o st2 ho hm
        have h1 := afterTry_of_ok sd dd man o st _
          (tryRun_steps sd dd man o st st1 st2 _ hmk hres hlist)
        refine ⟨L, [contentsHeader, pyListRepr (listdir st2.fs dd)], k, hk, ?_, hfa,
          Or.inr (Or.inr ⟨listdir st2.fs dd, rfl⟩), fun _ => hkfull⟩
        rw [h1]
        show st2.log ++ [contentsHeader, pyListRepr (listdir st2.fs dd)] = _
        rw [hlog]
      · have hm2 : memS st2.fs.dirs dd = false := by
          cases h : memS st2.fs.dirs dd
          · rfl
          · exact absurd h hm
        have hlist := listStep_clean_nondir dd o st2 ho hm2
        have h1 := afterTry_of_err sd dd man o st _ _
          (tryRun_steps sd dd man o st st1 st2 _ hmk hres hlist)
        refine ⟨L, [contentsHeader, errorLine (notADirMsg dd)], k, hk, ?_, hfa,
          Or.inr (Or.inl ⟨notADirMsg dd, rfl⟩), fun _ => hkfull⟩
        rw [h1]
        show (st2.log ++ [contentsHeader]) ++ [errorLine (notADirMsg dd)] = _
        rw [hlog]
        simp

/-- Claim C9: on every run — whatever failures the oracle injects — the final
log decomposes uniquely as: a directory-creation prefix that is empty or the
single creation line; then exactly one line per fully processed manifest
entry, in the manifest's listed order, each being that entry's copy line or
its not-found line (never both and never zero — Forall2 is a one-to-one,
order-preserving match against a prefix of the manifest); then a closing
part that is exactly one error line, or the contents header followed by one
error line, or the contents header followed by the listing line — and
whenever the closing part starts with the contents header (the loop was not
aborted), every manifest entry was processed: k = man.length. -/
theorem C9_one_line_per_entry (sd dd : String) (man : List (String × String))
    (o : Oracle) (fs : FS) :
    ∃ pre L post k, k ≤ man.length ∧
      (finalState sd dd man o fs).log = pre ++ L ++ post ∧
      (pre = [] ∨ pre = [createdLine dd]) ∧
      List.Forall₂ (fun e l => l = copiedLine (srcPath sd e) (dstPath dd e) ∨
        l = notFoundLine (srcPath sd e)) (man.take k) L ∧
      ((∃ m, post = [errorLine m]) ∨ (∃ m, post = [contentsHeader, errorLine m]) ∨
        (∃ ns, post = [contentsHeader, pyListRepr ns])) ∧
      ((∃ tail, post = contentsHeader :: tail) → k = man.length) := by
  by_cases hdd : pathExists fs dd = true
  · obtain ⟨L, post, k, hk, hlog, hfa, hshape, hfull⟩ := afterTry_lines_of_mkdir sd dd man o _ _
      (mkdirStep_exists dd o { fs := fs, log := [], calls := 0 } hdd)
    exact ⟨[], L, post, k, hk, by rw [finalState]; exact hlog, Or.inl rfl, hfa, hshape, hfull⟩
  · have hdd2 : pathExists fs dd = false := by
      cases h : pathExists fs dd
      · rfl
      · exact absurd h hdd
    cases ho : o 0 with
    | none =>
      obtain ⟨L, post, k, hk, hlog, hfa, hshape, hfull⟩ := afterTry_lines_of_mkdir sd dd man o _ _
        (mkdirStep_clean_missing dd o { fs := fs, log := [], calls := 0 } hdd2 ho)
      refine ⟨[createdLine dd], L, post, k, hk, ?_, Or.inr rfl, hfa, hshape, hfull⟩
      rw [finalState]
      simpa using hlog
    | some msg =>
      have hmk := mkdirStep_oracle_err dd o { fs := fs, log := [], calls := 0 } msg hdd2 ho
      have h1 := afterTry_of_err sd dd man o _ _ _ (tryRun_mkdir_err sd dd man o _ _ hmk)
      refine ⟨[], [], [errorLine msg], 0, Nat.zero_le _, ?_, Or.inl rfl, List.Forall₂.nil,
        Or.inl ⟨msg, rfl⟩, ?_⟩
      · rw [finalState, h1]
        simp
      · rintro ⟨tail, htail⟩
        injection htail with h2 _
        exact absurd h2 (errorLine_ne_contentsHeader msg)

theorem copyLoop_append (sd dd : String) (o : Oracle) :
    ∀ (a b : List (String × String)) (st : St),
    copyLoop sd dd o (a ++ b) st =
      match copyLoop sd dd o a st with
      | .ok st1 => copyLoop sd dd o b st1
      | .error err => .error err := by
  intro a
  induction a with
  | nil => intro b st; rfl
  | cons e rest ih =>
    intro b st
    rw [List.cons_append]
    simp only [copyLoop]
    cases h : copyStep sd dd o e st with
    | ok st1 => simp only [ih]
    | error err => rfl

theorem copyLoop_all_missing (sd dd : String) (o : Oracle) :
    ∀ (man : List (String × String)) (st : St),
    (∀ e ∈ man, pathExists st.fs (srcPath sd e) = false) →
    copyLoop sd dd o man st = .ok
      { st with log := st.log ++ man.map (fun e => notFoundLine (srcPath sd e)) } := by
  intro man
  induction man with
  | nil => intro st _; simp [copyLoop]
  | cons e rest ih =>
    intro st h
    have hstep := copyStep_notfound sd dd o e st (h e (List.mem_cons_self e rest))
    have hrest := ih { st with log := st.log ++ [notFoundLine (srcPath sd e)] }
      (fun f hf => h f (List.mem_cons_of_mem e hf))
    simp only [copyLoop, hstep, hrest]
    simp

/-- Claim C10: the directory-creation step is skipped whenever the destination
directory path exists at all, even when the existing entry at that path is
a file rather than a directory: no directory is created, no creation line
is logged anywhere, and the run proceeds to the copy steps against the
non-directory destination.  There, entries whose sources are missing are
logged not-found as usual; if all sources are missing the final os.listdir
raises NotADirectoryError which the handler logs, while the first entry
whose source is an existing file makes shutil.copy itself raise
NotADirectoryError at the destination path, aborting with only that error
line after the not-found lines. -/
theorem C10_nondir_destination (sd dd : String) (man : List (String × String))
    (o : Oracle) (fs : FS)
    (hO : ∀ n, o n = none)
    (hfile : (lookupF fs.files dd).isSome = true)
    (hnd : memS fs.dirs dd = false) :
    ∃ F L, run sd dd man o fs = .ok (F, L) ∧
      F.dirs = fs.dirs ∧
      createdLine dd ∉ L ∧
      ((∀ e ∈ man, pathExists fs (srcPath sd e) = false) →
        L = man.map (fun e => notFoundLine (srcPath sd e)) ++
          [contentsHeader, errorLine (notADirMsg dd)]) ∧
      (∀ m1 e0 m2, man = m1 ++ e0 :: m2 →
        (∀ e ∈ m1, pathExists fs (srcPath sd e) = false) →
        (lookupF fs.files (srcPath sd e0)).isSome = true →
        L = m1.map (fun e => notFoundLine (srcPath sd e)) ++
          [errorLine (notADirMsg (dstPath dd e0))]) := by
  have hdd : pathExists fs dd = true := by
    rw [pathExists, hnd, hfile]
    rfl
  obtain ⟨L0, post, hdirs, hlog, hL, hpost⟩ := finalState_clean_shape sd dd man o fs hO
  refine ⟨{ (finalState sd dd man o fs).fs with
      files := (setFile (finalState sd dd man o fs).fs.files logPath
        (String.intercalate "\n" (finalState sd dd man o fs).log)) },
    (finalState sd dd man o fs).log, ?_, ?_, ?_, ?_, ?_⟩
  · simp only [run, hO]
  · show (finalState sd dd man o fs).fs.dirs = fs.dirs
    rw [hdirs, dirsAfter, if_pos hdd]
  · rw [hlog, if_pos hdd]
    intro hmem
    rcases List.mem_append.mp hmem with h | h
    · rcases List.mem_append.mp h with h0 | h0
      · exact absurd h0 (List.not_mem_nil _)
      · obtain ⟨e, _, hor⟩ := hL _ h0
        rcases hor with h2 | h2
        · exact copiedLine_ne_createdLine _ _ dd h2.symm
        · exact notFoundLine_ne_createdLine _ dd h2.symm
    · rcases hpost _ h with h2 | ⟨ns, h2⟩ | ⟨m, h2⟩
      · exact contentsHeader_ne_createdLine dd h2.symm
      · exact pyListRepr_ne_createdLine ns dd h2.symm
      · exact errorLine_ne_createdLine m dd h2.symm
  · intro hmiss
    have hmk := mkdirStep_exists dd o { fs := fs, log := [], calls := 0 } hdd
    have hloop := copyLoop_all_missing sd dd o man { fs := fs, log := [], calls := 0 } hmiss
    have hlist := listStep_clean_nondir dd o
      { fs := fs, log := [] ++ man.map (fun e => notFoundLine (srcPath sd e)), calls := 0 }
      (hO 0) hnd
    rw [finalState,
      afterTry_of_err sd dd man o _ _ _ (tryRun_steps sd dd man o _ _ _ _ hmk hloop hlist)]
    simp
  · intro m1 e0 m2 hman hm1 he0
    subst hman
    obtain ⟨c, hc⟩ := Option.isSome_iff_exists.mp he0
    have hmk := mkdirStep_exists dd o { fs := fs, log := [], calls := 0 } hdd
    have hloop1 := copyLoop_all_missing sd dd o m1 { fs := fs, log := [], calls := 0 } hm1
    have hstep := copyStep_dstnotdir sd dd o e0
      { fs := fs, log := [] ++ m1.map (fun e => notFoundLine (srcPath sd e)), calls := 0 }
      c (hO 0) hc hnd hdd
    have hloopAll : copyLoop sd dd o (m1 ++ e0 :: m2) { fs := fs, log := [], calls := 0 } =
        .error
          ({ fs := fs, log := [] ++ m1.map (fun e => notFoundLine (srcPath sd e)),
             calls := 0 + 1 },
           notADirMsg (dstPath dd e0)) := by
      rw [copyLoop_append, hloop1]
      exact copyLoop_cons_err sd dd o e0 m2 _ _ hstep
    rw [finalState,
      afterTry_of_err sd dd (m1 ++ e0 :: m2) o _ _ _
        (tryRun_loop_err sd dd (m1 ++ e0 :: m2) o _ _ _ hmk hloopAll)]
    simp

/-- Initial file system for the C10 witness: the destination directory path
exists as a regular file, and one manifest source exists. -/
def w10fs : FS := { dirs := [], files := [("/d/", "FILE"), ("/s/a", "AA")] }

/-- Witness for claim C10: a concrete run against a file at the destination
directory path; nothing is created, no creation line appears, and the first
copy fails with NotADirectoryError at the destination path, which ends the log. -/
theorem C10_witness :
    (lookupF w10fs.files "/d/").isSome = true ∧
    memS w10fs.dirs "/d/" = false ∧
    (∃ F L, run "/s/" "/d/" [("a", "x")] noErr w10fs = .ok (F, L) ∧
      F.dirs = w10fs.dirs ∧
      createdLine "/d/" ∉ L ∧
      ((∀ e ∈ [("a", "x")], pathExists w10fs (srcPath "/s/" e) = false) →
        L = List.map (fun e => notFoundLine (srcPath "/s/" e)) [("a", "x")] ++
          [contentsHeader, errorLine (notADirMsg "/d/")]) ∧
      (∀ m1 e0 m2, [("a", "x")] = m1 ++ e0 :: m2 →
        (∀ e ∈ m1, pathExists w10fs (srcPath "/s/" e) = false) →
        (lookupF w10fs.files (srcPath "/s/" e0)).isSome = true →
        L = List.map (fun e => notFoundLine (srcPath "/s/" e)) m1 ++
          [errorLine (notADirMsg (dstPath "/d/" e0))])) :=
  ⟨rfl, rfl,
    C10_nondir_destination "/s/" "/d/" [("a", "x")] noErr w10fs (fun _ => rfl) rfl rfl⟩

/-- The file system produced by a failure-free run (copies applied, log
file written). -/
def runFS (sd dd : String) (man : List (String × String)) (fs : FS) : FS :=
  { dirs := dirsAfter dd fs,
    files := (setFile (filesAfter sd dd man fs) logPath
      (String.intercalate "\n" (logAfter sd dd man fs))) }

theorem runFS_dirs (sd dd : String) (man : List (String × String)) (fs : FS) :
    (runFS sd dd man fs).dirs = dirsAfter dd fs := rfl

theorem runFS_files (sd dd : String) (man : List (String × String)) (fs : FS)
    (p : String) (hp : p ≠ logPath) :
    lookupF (runFS sd dd man fs).files p =
      Option.or (lastWrite sd dd fs p man) (lookupF fs.files p) := by
  show lookupF (setFile (filesAfter sd dd man fs) logPath
    (String.intercalate "\n" (logAfter sd dd man fs))) p = _
  rw [lookupF_setFile_ne _ _ _ _ hp, filesAfter, lookupF_foldWrites]

theorem run_clean_runFS (sd dd : String) (man : List (String × String)) (o : Oracle)
    (fs : FS) (hO : ∀ n, o n = none)
    (hsf : ∀ e ∈ man, pathExists fs (srcPath sd e) = true →
      (lookupF fs.files (srcPath sd e)).isSome = true)
    (hni : ∀ e ∈ man, ∀ f ∈ man, srcPath sd e ≠ dstPath dd f)
    (hanc : pathExists fs dd = true ∨
      ∀ e ∈ man, memS (ancestors dd) (srcPath sd e) = false)
    (hdir : memS fs.dirs dd = true ∨ pathExists fs dd = false) :
    run sd dd man o fs = .ok (runFS sd dd man fs, logAfter sd dd man fs) :=
  run_clean sd dd man o fs hO hsf hni hanc hdir

/-- Claim C6: running the copier twice in succession with unchanged inputs is
idempotent: both runs complete (no error on account of the destination
files created by the first run) and the destination files at the manifest's
destination paths are identical after the second run as after the first.
Side conditions as in C1, plus neither source nor destination paths collide
with the log file the first run writes. -/
theorem C6_idempotent (sd dd : String) (man : List (String × String)) (o : Oracle)
    (fs : FS)
    (hO : ∀ n, o n = none)
    (hsf : ∀ e ∈ man, pathExists fs (srcPath sd e) = true →
      (lookupF fs.files (srcPath sd e)).isSome = true)
    (hni : ∀ e ∈ man, ∀ f ∈ man, srcPath sd e ≠ dstPath dd f)
    (hanc : pathExists fs dd = true ∨
      ∀ e ∈ man, memS (ancestors dd) (srcPath sd e) = false)
    (hdir : memS fs.dirs dd = true ∨ pathExists fs dd = false)
    (hlp : ∀ e ∈ man, dstPath dd e ≠ logPath ∧ srcPath sd e ≠ logPath) :
    ∃ F1 L1 F2 L2,
      run sd dd man o fs = .ok (F1, L1) ∧
      run sd dd man o F1 = .ok (F2, L2) ∧
      ∀ e ∈ man, lookupF F2.files (dstPath dd e) = lookupF F1.files (dstPath dd e) := by
  have h1 := run_clean_runFS sd dd man o fs hO hsf hni hanc hdir
  have hm1 : memS (runFS sd dd man fs).dirs dd = true := by
    rw [runFS_dirs, dirsAfter]
    by_cases hex : pathExists fs dd = true
    · rw [if_pos hex]
      rcases hdir with h | h
      · exact h
      · exact absurd hex (by rw [h]; exact Bool.false_ne_true)
    · rw [if_neg hex, memS_append, memS_ancestors_self]
      rfl
  have hAfiles : ∀ e ∈ man, lookupF (runFS sd dd man fs).files (srcPath sd e) =
      lookupF fs.files (srcPath sd e) := by
    intro e he
    rw [runFS_files sd dd man fs _ (hlp e he).2,
      lastWrite_none sd dd fs (srcPath sd e) man (fun f hf => (hni e he f hf).symm)]
    rfl
  have hAdirs : ∀ e ∈ man, memS (runFS sd dd man fs).dirs (srcPath sd e) =
      memS fs.dirs (srcPath sd e) := by
    intro e he
    rw [runFS_dirs, dirsAfter]
    by_cases hex : pathExists fs dd = true
    · rw [if_pos hex]
    · rw [if_neg hex, memS_append]
      rcases hanc with h | h
      · exact absurd h hex
      · rw [h e he, Bool.false_or]
  have hpe : ∀ e ∈ man, pathExists (runFS sd dd man fs) (srcPath sd e) =
      pathExists fs (srcPath sd e) := by
    intro e he
    rw [pathExists, pathExists, hAfiles e he, hAdirs e he]
  have hsf1 : ∀ e ∈ man, pathExists (runFS sd dd man fs) (srcPath sd e) = true →
      (lookupF (runFS sd dd man fs).files (srcPath sd e)).isSome = true := by
    intro e he h
    rw [hAfiles e he]
    exact hsf e he ((hpe e he).symm.trans h)
  have hdd1 : pathExists (runFS sd dd man fs) dd = true := by
    by_cases hex : pathExists fs dd = true
    · have hex' := hex
      rw [pathExists] at hex'
      cases hmd : memS fs.dirs dd with
      | true =>
        have hm1 : memS (runFS sd dd man fs).dirs dd = true := by
          rw [runFS_dirs, dirsAfter, if_pos hex]
          exact hmd
        rw [pathExists, hm1]
        rfl
      | false =>
        rw [hmd, Bool.false_or] at hex'
        have hiss : (lookupF (runFS sd dd man fs).files dd).isSome = true := by
          by_cases hq : dd = logPath
          · show (lookupF (setFile (filesAfter sd dd man fs) logPath
              (String.intercalate "\n" (logAfter sd dd man fs))) dd).isSome = true
            rw [hq, lookupF_setFile_self]
            rfl
          · rw [runFS_files sd dd man fs dd hq]
            exact isSome_orO_right _ _ hex'
        rw [pathExists, hiss, Bool.or_true]
    · have hm1 : memS (runFS sd dd man fs).dirs dd = true := by
        rw [runFS_dirs, dirsAfter, if_neg hex, memS_append, memS_ancestors_self]
        rfl
      rw [pathExists, hm1]
      rfl
  have h2 := run_clean_runFS sd dd man o (runFS sd dd man fs) hO hsf1 hni (Or.inl hdd1)
    (Or.inl hm1)
  refine ⟨runFS sd dd man fs, logAfter sd dd man fs,
    runFS sd dd man (runFS sd dd man fs), logAfter sd dd man (runFS sd dd man fs),
    h1, h2, ?_⟩
  intro e he
  rw [runFS_files sd dd man (runFS sd dd man fs) _ (hlp e he).1,
    lastWrite_congr sd dd (runFS sd dd man fs) fs (dstPath dd e) man hAfiles,
    runFS_files sd dd man fs _ (hlp e he).1]
  exact or_or_self _ _

/-- Witness for claim C6: two concrete consecutive runs with unchanged inputs, with
identical destination files after each. -/
theorem C6_witness :
    (∃ F1 L1 F2 L2,
      run "/s/" "/d/" w1man noErr w1fs = .ok (F1, L1) ∧
      run "/s/" "/d/" w1man noErr F1 = .ok (F2, L2) ∧
      ∀ e ∈ w1man, lookupF F2.files (dstPath "/d/" e) = lookupF F1.files (dstPath "/d/" e)) :=
  C6_idempotent "/s/" "/d/" w1man noErr w1fs (fun _ => rfl) (by decide) (by decide)
    (Or.inl rfl) (Or.inl rfl) (by decide)

end BatchCopier
